import Mathlib

/-!
Verification development for the wind-field visualization core
(simulation.ts): geodesic math, radial-basis wind interpolation,
region sampling, and the per-tick particle stream simulator.

The embedding has three layers:
* ideal real arithmetic (over the reals) for the trigonometric and
  linear-algebraic content of the interpolator;
* a NaN-tracking scalar `FV` (a value is either a finite number or NaN)
  used where the behaviour of the code on non-finite floating-point data
  is at stake; arithmetic on `FV` propagates NaN the way IEEE-754
  arithmetic does;
* an exact-rational simulator embedding (all region bounds in the source
  are decimal literals, hence exact rationals), which keeps every
  simulator-level predicate decidable.
-/

namespace Winds

/-! ## Geodesic math, from simulation.ts lines 96-121 -/

structure Position where
  lat : ℝ
  lon : ℝ

structure Wind where
  speed : ℝ
  dir : ℝ

structure StationReport where
  pos : Position
  wind : Wind

noncomputable def radians (theta : ℝ) : ℝ := theta * Real.pi / 180

noncomputable def degrees (theta : ℝ) : ℝ := theta * 180 / Real.pi

noncomputable def hav (theta : ℝ) : ℝ := (1 - Real.cos theta) / 2

noncomputable def invHav (x : ℝ) : ℝ :=
  Real.arccos (min 1 (max (-1) (1 - 2 * x)))

noncomputable def haversineDist (p1 p2 : Position) : ℝ :=
  invHav (hav (radians (p2.lat - p1.lat)) +
    Real.cos (radians p1.lat) * Real.cos (radians p2.lat) *
      hav (radians (p2.lon - p1.lon)))

/-! ## Radial-basis interpolator algebra, from simulation.ts lines 19-93

`makeInterpolator` is parameterized over `basisFn` and `norm` exactly as
in the source.  The kernel matrix loop (lines 38-46) sets, for j < i,
entry (i,j) and its mirror (j,i) to `basisFn (norm reports[i].pos
reports[j].pos)`, and every diagonal entry to 1.  The two dense solves go
through the external ml-matrix library; the solved weight vectors are
therefore abstracted as function arguments, and theorems quantify over
them (hypothesizing an exact solve where a claim needs one). -/

noncomputable def kernelEntry (basisFn : ℝ → ℝ)
    (norm : Position → Position → ℝ) (rs : List StationReport)
    (i j : Fin rs.length) : ℝ :=
  if i = j then 1
  else if (j : ℕ) < (i : ℕ) then
    basisFn (norm (rs.get i).pos (rs.get j).pos)
  else basisFn (norm (rs.get j).pos (rs.get i).pos)

/-- Lat-axis speed component of station i: speed * cos(radians dir),
from simulation.ts lines 58-60. -/
noncomputable def vLat (rs : List StationReport) (i : Fin rs.length) : ℝ :=
  (rs.get i).wind.speed * Real.cos (radians (rs.get i).wind.dir)

/-- Lon-axis speed component of station i: speed * sin(radians dir),
from simulation.ts lines 61-63. -/
noncomputable def vLon (rs : List StationReport) (i : Fin rs.length) : ℝ :=
  (rs.get i).wind.speed * Real.sin (radians (rs.get i).wind.dir)

/-- Entry j of the query-time basis row vector, from simulation.ts
lines 68-70. -/
noncomputable def baseEntry (basisFn : ℝ → ℝ)
    (norm : Position → Position → ℝ) (rs : List StationReport)
    (pos : Position) (j : Fin rs.length) : ℝ :=
  basisFn (norm pos (rs.get j).pos)

/-- Dot product of the basis row with a weight vector (the 1x1 result of
`base.mmul(weights)` in simulation.ts lines 71-72); a sum over zero
stations is 0. -/
noncomputable def speedAt (basisFn : ℝ → ℝ)
    (norm : Position → Position → ℝ) (rs : List StationReport)
    (w : Fin rs.length → ℝ) (pos : Position) : ℝ :=
  ∑ j, baseEntry basisFn norm rs pos j * w j

noncomputable def hypot (x y : ℝ) : ℝ := Real.sqrt (x ^ 2 + y ^ 2)

/-- JavaScript Math.atan2 (on non-special finite inputs, with signed
zeros collapsed): Math.atan2(0, 0) = 0. -/
noncomputable def atan2 (y x : ℝ) : ℝ :=
  if 0 < x then Real.arctan (y / x)
  else if x < 0 then
    (if 0 ≤ y then Real.arctan (y / x) + Real.pi
     else Real.arctan (y / x) - Real.pi)
  else if 0 < y then Real.pi / 2
  else if y < 0 then -(Real.pi / 2)
  else 0

def EARTH_RADIUS : ℚ := 3963.1

/-- The evaluation closure returned by `makeInterpolator`, simulation.ts
lines 67-92, abstracted over the two solved weight vectors. -/
noncomputable def evaluate (basisFn : ℝ → ℝ)
    (norm : Position → Position → ℝ) (rs : List StationReport)
    (wLat wLon : Fin rs.length → ℝ) (pos : Position) (hours : ℝ) :
    Position × Wind :=
  let latSpeed := speedAt basisFn norm rs wLat pos
  let lonSpeed := speedAt basisFn norm rs wLon pos
  let latMiles := latSpeed * hours
  let lonMiles := lonSpeed * hours
  (⟨pos.lat + degrees (latMiles / (EARTH_RADIUS : ℝ)),
    pos.lon + degrees (lonMiles / (EARTH_RADIUS : ℝ))⟩,
   ⟨hypot latSpeed lonSpeed, degrees (atan2 lonSpeed latSpeed)⟩)

/-! ## NaN-tracking scalars

IEEE-754 floating-point data reaching `makeInterpolator` can be NaN
(the source itself tests `isNaN(report.wind.speed) ||
isNaN(report.wind.dir)` on lines 52-54).  `FV` models a float as either
NaN or an ideal finite number; the arithmetic and trigonometric
operations below propagate NaN exactly as IEEE-754 does on these
non-infinite inputs. -/

inductive FV (α : Type) where
  | nan : FV α
  | fin (x : α) : FV α
deriving DecidableEq

def FV.isNaN {α : Type} : FV α → Bool
  | FV.nan => true
  | FV.fin _ => false

noncomputable def FV.mulR : FV ℝ → FV ℝ → FV ℝ
  | FV.fin a, FV.fin b => FV.fin (a * b)
  | _, _ => FV.nan

noncomputable def FV.radiansR : FV ℝ → FV ℝ
  | FV.nan => FV.nan
  | FV.fin x => FV.fin (radians x)

noncomputable def FV.cosR : FV ℝ → FV ℝ
  | FV.nan => FV.nan
  | FV.fin x => FV.fin (Real.cos x)

noncomputable def FV.sinR : FV ℝ → FV ℝ
  | FV.nan => FV.nan
  | FV.fin x => FV.fin (Real.sin x)

structure FVPosition where
  lat : FV ℝ
  lon : FV ℝ

structure FVWind where
  speed : FV ℝ
  dir : FV ℝ

structure FVReport where
  pos : FVPosition
  wind : FVWind

def dummyFVReport : FVReport := ⟨⟨FV.nan, FV.nan⟩, ⟨FV.nan, FV.nan⟩⟩

/-- The kernel matrix of `makeInterpolator` (simulation.ts lines 38-46)
over NaN-tracking scalars, as a list of rows: one row and one column
per report of the input list, with no filtering. -/
noncomputable def makeBases (basisFn : FV ℝ → FV ℝ)
    (norm : FVPosition → FVPosition → FV ℝ) (rs : List FVReport) :
    List (List (FV ℝ)) :=
  (List.range rs.length).map fun i => (List.range rs.length).map fun j =>
    if i = j then FV.fin 1
    else if j < i then
      basisFn (norm (rs.getD i dummyFVReport).pos
        (rs.getD j dummyFVReport).pos)
    else
      basisFn (norm (rs.getD j dummyFVReport).pos
        (rs.getD i dummyFVReport).pos)

/-- The lat-axis right-hand side of the solve (simulation.ts lines
58-60): one entry per report of the input list, with no filtering. -/
noncomputable def latSpeeds (rs : List FVReport) : List (FV ℝ) :=
  rs.map fun r => FV.mulR r.wind.speed (FV.cosR (FV.radiansR r.wind.dir))

/-- The lon-axis right-hand side of the solve (simulation.ts lines
61-63). -/
noncomputable def lonSpeeds (rs : List FVReport) : List (FV ℝ) :=
  rs.map fun r => FV.mulR r.wind.speed (FV.sinR (FV.radiansR r.wind.dir))

/-- Modelled from the spec (construction contract, step 1): the reports
that survive the filter the spec prescribes — those whose wind speed
and direction are both finite.  This definition follows the spec's
words and exists only to be compared against the source-derived
definitions above; the source has no such filter. -/
def specRetainedReports (rs : List FVReport) : List FVReport :=
  rs.filter fun r => !(FV.isNaN r.wind.speed) && !(FV.isNaN r.wind.dir)

/-! Concrete instances used by closed witness and counterexample
theorems. -/

noncomputable def badReport : FVReport :=
  ⟨⟨FV.fin 0, FV.fin 0⟩, ⟨FV.nan, FV.fin 0⟩⟩

noncomputable def oneBasisF : FV ℝ → FV ℝ := fun _ => FV.fin 1

noncomputable def zeroNormF : FVPosition → FVPosition → FV ℝ :=
  fun _ _ => FV.fin 0

/-! ## Regions and the particle stream simulator, simulation.ts lines
123-301

Every region bound in the source is a decimal literal, and the
simulator itself does no trigonometry — only comparisons, affine
sampling arithmetic and integer ttl bookkeeping — so this layer is
embedded over exact rationals, with NaN-tracking `FV` coordinates
(a JavaScript comparison against NaN is false, modelled by `FV.blt`).
The ambient `Math.random()` source is modelled as an injected sequence
`f : ℕ → ℚ` of draws together with the index of the next draw, threaded
through every operation in the source's evaluation order. -/

structure QPosition where
  lat : FV ℚ
  lon : FV ℚ
deriving DecidableEq

structure QWind where
  speed : FV ℚ
  dir : FV ℚ
deriving DecidableEq

/-- JavaScript `<` on possibly-NaN numbers: false when either side is
NaN. -/
def FV.blt (a b : FV ℚ) : Bool :=
  match a, b with
  | FV.fin x, FV.fin y => decide (x < y)
  | _, _ => false

/-- A corner passed to the `Rect` constructor (always a finite literal
in the source). -/
structure Corner where
  lat : ℚ
  lon : ℚ

structure Rect where
  bottom : ℚ
  top : ℚ
  left : ℚ
  right : ℚ
  area : ℚ
deriving DecidableEq

/-- The `Rect` constructor, simulation.ts lines 130-137. -/
def Rect.make (c1 c2 : Corner) : Rect :=
  ⟨min c1.lat c2.lat, max c1.lat c2.lat, min c1.lon c2.lon,
   max c1.lon c2.lon,
   (max c1.lat c2.lat - min c1.lat c2.lat) *
     (max c1.lon c2.lon - min c1.lon c2.lon)⟩

/-- Strict-interior membership test, simulation.ts lines 139-146. -/
def Rect.contains (r : Rect) (p : QPosition) : Bool :=
  FV.blt (FV.fin r.bottom) p.lat && FV.blt p.lat (FV.fin r.top) &&
    FV.blt (FV.fin r.left) p.lon && FV.blt p.lon (FV.fin r.right)

/-- `Rect.random`, simulation.ts lines 148-153, at draws x and y. -/
def Rect.randomPt (r : Rect) (x y : ℚ) : QPosition :=
  ⟨FV.fin (r.bottom + (r.top - r.bottom) * x),
   FV.fin (r.left + (r.right - r.left) * y)⟩

structure MultiRect where
  rects : List Rect
  totalArea : ℚ

/-- The `MultiRect` constructor, simulation.ts lines 160-165. -/
def MultiRect.make (rects : List Rect) : MultiRect :=
  ⟨rects, (rects.map Rect.area).sum⟩

/-- Membership in any constituent rect, simulation.ts lines 167-169. -/
def MultiRect.contains (m : MultiRect) (p : QPosition) : Bool :=
  m.rects.any fun r => r.contains p

/-- The threshold walk of `MultiRect.random`, simulation.ts lines
173-180; `none` is the source's `throw new Error` fall-through. -/
def randomGo (f : ℕ → ℚ) (weight : ℚ) :
    List Rect → ℚ → ℕ → Option (QPosition × ℕ)
  | [], _, _ => none
  | r :: rest, threshold, k =>
    if weight ≤ threshold + r.area then
      some (r.randomPt (f k) (f (k + 1)), k + 2)
    else randomGo f weight rest (threshold + r.area) k

/-- `MultiRect.random`, simulation.ts lines 171-181: one draw for the
weight, then two draws inside the selected rect. -/
def MultiRect.randomPoint (m : MultiRect) (f : ℕ → ℚ) (k : ℕ) :
    Option (QPosition × ℕ) :=
  randomGo f (f k * m.totalArea) m.rects 0 (k + 1)

/-- JavaScript `Math.trunc`: truncation toward zero. -/
def jsTrunc (q : ℚ) : ℤ := if 0 ≤ q then ⌊q⌋ else ⌈q⌉

structure Stream where
  pos : QPosition
  ttl : ℤ
deriving DecidableEq

/-- `MultiRect.randomStream`, simulation.ts lines 183-188: a fresh
position, then a ttl drawn as minTicks plus trunc of a random draw
times the absolute tick-range width. -/
def MultiRect.randomStream (m : MultiRect) (minT maxT : ℤ) (f : ℕ → ℚ)
    (k : ℕ) : Option (Stream × ℕ) :=
  match m.randomPoint f k with
  | none => none
  | some (p, k1) =>
    some (⟨p, minT + jsTrunc (f k1 * ((|maxT - minT| : ℤ) : ℚ))⟩, k1 + 1)

/-- Spawn lifetime upper bound, simulation.ts line 275. -/
def maxTicksOf (window tick : ℚ) : ℤ := min 10 (jsTrunc (window / tick))

/-- Spawn lifetime lower bound, simulation.ts line 276. -/
def minTicksOf (window tick : ℚ) : ℤ :=
  min 5 (jsTrunc ((0.7 : ℚ) * (maxTicksOf window tick : ℚ)))

/-- The interpolator as consumed by the simulator: an opaque function
from a query position and an hour count to a next position and a
wind. -/
abbrev QInterp : Type := QPosition → ℚ → QPosition × QWind

/-- The advection part of the per-particle loop body, simulation.ts
lines 293-297: record prevPos, move the particle to the interpolated
position with no finiteness check, decrement ttl, emit the segment. -/
def advect (interp : QInterp) (dt : ℚ) (s : Stream) (k : ℕ) :
    Stream × (QPosition × QPosition) × ℕ :=
  (⟨(interp s.pos dt).1, s.ttl - 1⟩, (s.pos, (interp s.pos dt).1), k)

/-- The full per-particle loop body, simulation.ts lines 289-297:
respawn first when the ttl has expired or the position has left the
region, then advect. -/
def stepStream (region : MultiRect) (minT maxT : ℤ) (interp : QInterp)
    (dt : ℚ) (s : Stream) (f : ℕ → ℚ) (k : ℕ) :
    Option (Stream × (QPosition × QPosition) × ℕ) :=
  if s.ttl ≤ 0 ∨ region.contains s.pos = false then
    match region.randomStream minT maxT f k with
    | none => none
    | some (s1, k1) => some (advect interp dt s1 k1)
  else some (advect interp dt s k)

/-- The tick closure returned by `makeUpdate`, simulation.ts lines
286-300, as a fold over the pool in index order, returning the updated
pool, the segment list and the next random-draw index. -/
def tickGo (region : MultiRect) (minT maxT : ℤ) (interp : QInterp)
    (dt : ℚ) (f : ℕ → ℚ) :
    List Stream → ℕ →
      Option (List Stream × List (QPosition × QPosition) × ℕ)
  | [], k => some ([], [], k)
  | s :: rest, k =>
    match stepStream region minT maxT interp dt s f k with
    | none => none
    | some (s1, seg, k1) =>
      match tickGo region minT maxT interp dt f rest k1 with
      | none => none
      | some (rest1, segs, k2) => some (s1 :: rest1, seg :: segs, k2)

/-- Positional correspondence between the pool before a tick, the pool
after it and the emitted segments: entry i of each output list arises
from processing the particle at pool index i, with the random-draw
index threaded left to right. -/
inductive Steps (region : MultiRect) (minT maxT : ℤ) (interp : QInterp)
    (dt : ℚ) (f : ℕ → ℚ) :
    ℕ → List Stream → List Stream → List (QPosition × QPosition) → ℕ →
      Prop
  | nil (k : ℕ) : Steps region minT maxT interp dt f k [] [] [] k
  | cons {k : ℕ} {s s1 : Stream} {seg : QPosition × QPosition} {k1 : ℕ}
      {rest rest1 : List Stream} {segs : List (QPosition × QPosition)}
      {k2 : ℕ} :
      stepStream region minT maxT interp dt s f k = some (s1, seg, k1) →
      Steps region minT maxT interp dt f k1 rest rest1 segs k2 →
      Steps region minT maxT interp dt f k (s :: rest) (s1 :: rest1)
        (seg :: segs) k2

/-- The hardcoded spawn/containment region, simulation.ts lines
193-253. -/
def USA_OUTER : MultiRect := MultiRect.make [
  Rect.make ⟨32.654, -117.133⟩ ⟨48.966, -92.09⟩,
  Rect.make ⟨29.11, -81.394⟩ ⟨41.608, -92.09⟩,
  Rect.make ⟨41.608, -83.093⟩ ⟨46.786, -92.09⟩,
  Rect.make ⟨47.969, -89.67⟩ ⟨46.786, -92.09⟩,
  Rect.make ⟨48.9988, -123.027⟩ ⟨37.774, -117.133⟩,
  Rect.make ⟨48.254, -124.261⟩ ⟨39.452, -123.027⟩,
  Rect.make ⟨37.774, -120.648⟩ ⟨34.014, -117.113⟩,
  Rect.make ⟨37.774, -120.648⟩ ⟨35.905, -121.904⟩,
  Rect.make ⟨32.654, -92.09⟩ ⟨31.32, -115.095⟩,
  Rect.make ⟨26.21, -92.09⟩ ⟨31.32, -106.41⟩,
  Rect.make ⟨41.608, -71.031⟩ ⟨44.67, -74.97⟩,
  Rect.make ⟨43.26, -74.97⟩ ⟨44.26, -75.9⟩,
  Rect.make ⟨41.608, -76.117⟩ ⟨43.26, -79.033⟩,
  Rect.make ⟨41.608, -79.033⟩ ⟨42.123, -81.3⟩,
  Rect.make ⟨41.608, -81.394⟩ ⟨34.718, -75.987⟩,
  Rect.make ⟨47.16, -67.85⟩ ⟨44.32, -69.77⟩,
  Rect.make ⟨43.07, -71.031⟩ ⟨45.089, -69.77⟩,
  Rect.make ⟨36.84, -75.987⟩ ⟨41.608, -71.16⟩,
  Rect.make ⟨34.718, -81.394⟩ ⟨32.77, -79.91⟩,
  Rect.make ⟨34.718, -79.91⟩ ⟨33.7, -77.84⟩,
  Rect.make ⟨29.11, -81.394⟩ ⟨27.12, -82.48⟩,
  Rect.make ⟨27.12, -81.79⟩ ⟨25.07, -80.18⟩,
  Rect.make ⟨27.12, -81.21⟩ ⟨28.61, -80.8⟩]

/-- Cumulative area of the first n rects: the running threshold of the
`MultiRect.random` walk after n rects. -/
def cumArea (rects : List Rect) (n : ℕ) : ℚ :=
  ((rects.take n).map Rect.area).sum

def zeroDraws : ℕ → ℚ := fun _ => 0

def halfDraws : ℕ → ℚ := fun _ => 1 / 2

def unitRect : Rect := Rect.make ⟨0, 0⟩ ⟨1, 1⟩

def unitRegion : MultiRect := MultiRect.make [unitRect]

def nanInterp : QInterp :=
  fun _ _ => (⟨FV.nan, FV.nan⟩, ⟨FV.fin 0, FV.fin 0⟩)

def idInterp : QInterp := fun p _ => (p, ⟨FV.fin 0, FV.fin 0⟩)

def goodPos : QPosition := ⟨FV.fin 40, FV.fin (-100)⟩

noncomputable def oneBasisR : ℝ → ℝ := fun _ => 1

noncomputable def zeroNormR : Position → Position → ℝ := fun _ _ => 0

noncomputable def report0 : StationReport := ⟨⟨0, 0⟩, ⟨0, 0⟩⟩

noncomputable def zeroW : Fin (List.length [report0]) → ℝ := fun _ => 0

noncomputable def emptyW : Fin (List.length ([] : List StationReport)) → ℝ :=
  fun _ => 0

lemma hav_neg (x : ℝ) : hav (-x) = hav x := by
  unfold hav
  rw [Real.cos_neg]

lemma hav_zero : hav 0 = 0 := by
  unfold hav
  rw [Real.cos_zero]
  norm_num

lemma radians_zero : radians 0 = 0 := by
  unfold radians
  ring

lemma invHav_zero : invHav 0 = 0 := by
  unfold invHav
  norm_num [Real.arccos_one]

lemma radians_sub_swap (x y : ℝ) : radians (x - y) = -(radians (y - x)) := by
  unfold radians
  ring

lemma hav_radians_sub_swap (x y : ℝ) :
    hav (radians (x - y)) = hav (radians (y - x)) := by
  rw [radians_sub_swap, hav_neg]

lemma haversineDist_self (a : Position) : haversineDist a a = 0 := by
  unfold haversineDist
  rw [sub_self, sub_self, radians_zero, hav_zero]
  rw [mul_zero, add_zero, invHav_zero]

lemma haversineDist_symm (a b : Position) :
    haversineDist a b = haversineDist b a := by
  unfold haversineDist
  rw [hav_radians_sub_swap a.lat b.lat, hav_radians_sub_swap a.lon b.lon,
    mul_comm (Real.cos (radians b.lat)) (Real.cos (radians a.lat))]

lemma haversineDist_nonneg (a b : Position) : 0 ≤ haversineDist a b :=
  Real.arccos_nonneg _

lemma haversineDist_le_pi (a b : Position) : haversineDist a b ≤ Real.pi :=
  Real.arccos_le_pi _

/-- Claim C8: the great-circle distance function satisfies, for all
positions a and b: haversineDist a a = 0, haversineDist a b =
haversineDist b a, and the result always lies in the closed interval
from 0 to pi. -/
theorem c8_haversine_properties (a b : Position) :
    haversineDist a a = 0 ∧
    haversineDist a b = haversineDist b a ∧
    0 ≤ haversineDist a b ∧ haversineDist a b ≤ Real.pi :=
  ⟨haversineDist_self a, haversineDist_symm a b,
    haversineDist_nonneg a b, haversineDist_le_pi a b⟩

/-! ### Exactness at sample points (C4) -/

lemma baseEntry_eq_kernelEntry (basisFn : ℝ → ℝ)
    (norm : Position → Position → ℝ) (rs : List StationReport)
    (hsym : ∀ p q, norm p q = norm q p)
    (hdiag : ∀ p, basisFn (norm p p) = 1) (i j : Fin rs.length) :
    baseEntry basisFn norm rs ((rs.get i).pos) j =
      kernelEntry basisFn norm rs i j := by
  unfold baseEntry kernelEntry
  rcases eq_or_ne i j with h | h
  · subst h
    rw [if_pos rfl, hdiag]
  · rw [if_neg h]
    rcases lt_or_ge (j : ℕ) (i : ℕ) with hlt | hge
    · rw [if_pos hlt]
    · rw [if_neg (not_lt.mpr hge), hsym]

lemma speedAt_station (basisFn : ℝ → ℝ) (norm : Position → Position → ℝ)
    (rs : List StationReport) (w v : Fin rs.length → ℝ)
    (hsym : ∀ p q, norm p q = norm q p)
    (hdiag : ∀ p, basisFn (norm p p) = 1)
    (hsolve : ∀ i, (∑ j, kernelEntry basisFn norm rs i j * w j) = v i)
    (i : Fin rs.length) :
    speedAt basisFn norm rs w ((rs.get i).pos) = v i := by
  unfold speedAt
  rw [Finset.sum_congr rfl fun j _ => by
    rw [baseEntry_eq_kernelEntry basisFn norm rs hsym hdiag i j]]
  exact hsolve i

/-- Claim C4: when the two kernel systems are solved exactly
(hypotheses hlat, hlon, with the kernel built per the source: entry
(i,j) is basisFn of the distance for i different from j and 1 on the
diagonal), evaluating the interpolator at the exact position of any
report i yields component speeds equal to that report's decomposed wind
components vLat i and vLon i, so interpolation is exact at sample
points.  The hypotheses hsym and hdiag hold for the haversine norm and
the Gaussian basis of the source. -/
theorem c4_exact_at_stations (basisFn : ℝ → ℝ)
    (norm : Position → Position → ℝ) (rs : List StationReport)
    (wLat wLon : Fin rs.length → ℝ)
    (hsym : ∀ p q, norm p q = norm q p)
    (hdiag : ∀ p, basisFn (norm p p) = 1)
    (hlat : ∀ i, (∑ j, kernelEntry basisFn norm rs i j * wLat j) = vLat rs i)
    (hlon : ∀ i, (∑ j, kernelEntry basisFn norm rs i j * wLon j) = vLon rs i)
    (i : Fin rs.length) :
    speedAt basisFn norm rs wLat ((rs.get i).pos) = vLat rs i ∧
    speedAt basisFn norm rs wLon ((rs.get i).pos) = vLon rs i :=
  ⟨speedAt_station basisFn norm rs wLat _ hsym hdiag hlat i,
   speedAt_station basisFn norm rs wLon _ hsym hdiag hlon i⟩

/-- Witness for claim C4 at a concrete one-report instance with the
constant-one basis, the zero norm and the zero weight vector. -/
theorem c4_exact_at_stations_witness :
    speedAt oneBasisR zeroNormR [report0] zeroW
        (([report0].get ⟨0, Nat.zero_lt_one⟩).pos) =
      vLat [report0] ⟨0, Nat.zero_lt_one⟩ ∧
    speedAt oneBasisR zeroNormR [report0] zeroW
        (([report0].get ⟨0, Nat.zero_lt_one⟩).pos) =
      vLon [report0] ⟨0, Nat.zero_lt_one⟩ :=
  c4_exact_at_stations oneBasisR zeroNormR [report0] zeroW zeroW
    (fun _ _ => rfl) (fun _ => rfl)
    (fun i => by
      rcases i with ⟨_ | n, hi⟩
      · simp [kernelEntry, zeroW, vLat, report0]
      · exact absurd hi (by simp))
    (fun i => by
      rcases i with ⟨_ | n, hi⟩
      · simp [kernelEntry, zeroW, vLon, report0]
      · exact absurd hi (by simp))
    ⟨0, Nat.zero_lt_one⟩

/-! ### The empty report list (C2) -/

lemma speedAt_nil (basisFn : ℝ → ℝ) (norm : Position → Position → ℝ)
    (w : Fin (List.length ([] : List StationReport)) → ℝ)
    (pos : Position) : speedAt basisFn norm [] w pos = 0 := by
  unfold speedAt
  apply Finset.sum_eq_zero
  intro j _
  exact absurd j.isLt (by simp)

lemma atan2_zero_zero : atan2 0 0 = 0 := by
  unfold atan2
  norm_num

lemma hypot_zero_zero : hypot 0 0 = 0 := by
  unfold hypot
  norm_num

lemma degrees_zero : degrees 0 = 0 := by
  unfold degrees
  ring

lemma evaluate_nil (basisFn : ℝ → ℝ) (norm : Position → Position → ℝ)
    (wLat wLon : Fin (List.length ([] : List StationReport)) → ℝ)
    (pos : Position) (hours : ℝ) :
    evaluate basisFn norm [] wLat wLon pos hours = (pos, ⟨0, 0⟩) := by
  rcases pos with ⟨la, lo⟩
  simp [evaluate, speedAt_nil, degrees_zero, atan2_zero_zero,
    hypot_zero_zero, zero_mul, zero_div]

/-- Claim C2 (amended): `makeInterpolator` applied to the empty report
list returns an ordinary evaluation closure with no failure state; for
every solved weight vectors, every query position and every hours value
it returns the query position unchanged together with an all-zero wind
(the basis row is empty, so both dot products are 0), rather than
failing with an InterpolationUnavailable error. -/
theorem c2_empty_interpolator_degenerate (basisFn : ℝ → ℝ)
    (norm : Position → Position → ℝ)
    (wLat wLon : Fin (List.length ([] : List StationReport)) → ℝ)
    (pos : Position) (hours : ℝ) :
    evaluate basisFn norm [] wLat wLon pos hours = (pos, ⟨0, 0⟩) :=
  evaluate_nil basisFn norm wLat wLon pos hours

/-- Claim C2 counterexample: on the empty report list the evaluator
does not fail and has no empty/failed state; at a concrete query it
returns exactly the degenerate output the claim rules out: the query
position unchanged and a zero wind (speed 0, direction 0). -/
theorem c2_counterexample :
    evaluate oneBasisR zeroNormR [] emptyW emptyW ⟨0, 0⟩ 1 =
      (⟨0, 0⟩, ⟨0, 0⟩) :=
  evaluate_nil oneBasisR zeroNormR emptyW emptyW ⟨0, 0⟩ 1

/-! ### No filtering of non-finite reports (C1) -/

lemma FV.mulR_nan (y : FV ℝ) : FV.mulR FV.nan y = FV.nan := by
  cases y <;> rfl

lemma specRetained_badReport : specRetainedReports [badReport] = [] := rfl

lemma latSpeeds_badReport : latSpeeds [badReport] = [FV.nan] := by
  simp [latSpeeds, badReport, FV.mulR_nan]

/-- Claim C1 (amended): `makeInterpolator` performs no filtering: every
report of the input list, finite-wind or not, contributes a row and a
column to the kernel matrix and an entry to each of the two solve
right-hand sides (non-finite wind data is only logged with a console
warning), and a report with NaN speed puts a NaN entry into both solve
inputs. -/
theorem c1_no_filtering (basisFn : FV ℝ → FV ℝ)
    (norm : FVPosition → FVPosition → FV ℝ) (rs : List FVReport) :
    (makeBases basisFn norm rs).length = rs.length ∧
    (∀ row ∈ makeBases basisFn norm rs, row.length = rs.length) ∧
    (latSpeeds rs).length = rs.length ∧
    (lonSpeeds rs).length = rs.length ∧
    (∀ (i : ℕ) (r : FVReport), rs[i]? = some r → r.wind.speed = FV.nan →
      (latSpeeds rs)[i]? = some FV.nan ∧
      (lonSpeeds rs)[i]? = some FV.nan) := by
  refine ⟨by simp [makeBases], ?_, by simp [latSpeeds],
    by simp [lonSpeeds], ?_⟩
  · intro row hrow
    simp only [makeBases, List.mem_map, List.mem_range] at hrow
    obtain ⟨i, _, hi⟩ := hrow
    rw [← hi]
    simp
  · intro i r hget hnan
    constructor
    · rw [latSpeeds, List.getElem?_map, hget]
      simp [hnan, FV.mulR_nan]
    · rw [lonSpeeds, List.getElem?_map, hget]
      simp [hnan, FV.mulR_nan]

/-- Witness for claim C1 at the concrete one-report list whose single
report has NaN speed: the NaN report contributes a NaN entry to each
solve right-hand side. -/
theorem c1_no_filtering_witness :
    (latSpeeds [badReport])[0]? = some FV.nan ∧
    (lonSpeeds [badReport])[0]? = some FV.nan :=
  (c1_no_filtering oneBasisF zeroNormF [badReport]).2.2.2.2 0 badReport
    rfl rfl

/-- Claim C1 counterexample: for the concrete report list consisting of
one report with NaN wind speed, the spec-prescribed filter retains
nothing, yet the kernel matrix built by the source has a row for the
report and the lat-speed solve input is the one-entry list holding NaN:
the non-finite report is not excluded from the kernel matrix or the
solves. -/
theorem c1_counterexample :
    latSpeeds [badReport] ≠ latSpeeds (specRetainedReports [badReport]) ∧
    (makeBases oneBasisF zeroNormF [badReport]).length ≠
      (makeBases oneBasisF zeroNormF (specRetainedReports [badReport])).length ∧
    latSpeeds [badReport] = [FV.nan] := by
  refine ⟨?_, ?_, latSpeeds_badReport⟩
  · rw [latSpeeds_badReport, specRetained_badReport]
    simp [latSpeeds]
  · rw [specRetained_badReport]
    simp [makeBases]

/-! ### Per-particle step behaviour (C3, C5, C10) -/

lemma FV.blt_nan_right (a : FV ℚ) : FV.blt a FV.nan = false := by
  cases a <;> rfl

lemma FV.blt_nan_left (b : FV ℚ) : FV.blt FV.nan b = false := by
  cases b <;> rfl

lemma FV.eq_nan_of_isNaN {α : Type} {v : FV α} (h : FV.isNaN v = true) :
    v = FV.nan := by
  cases v
  · rfl
  · exact absurd h (by simp [FV.isNaN])

lemma rect_contains_nan (r : Rect) (p : QPosition)
    (h : FV.isNaN p.lat = true ∨ FV.isNaN p.lon = true) :
    r.contains p = false := by
  unfold Rect.contains
  rcases h with h | h
  · rw [FV.eq_nan_of_isNaN h, FV.blt_nan_left]
    simp
  · rw [FV.eq_nan_of_isNaN h, FV.blt_nan_right]
    simp

lemma multiRect_contains_nan (m : MultiRect) (p : QPosition)
    (h : FV.isNaN p.lat = true ∨ FV.isNaN p.lon = true) :
    m.contains p = false := by
  unfold MultiRect.contains
  rw [List.any_eq_false]
  intro r _
  simp [rect_contains_nan r p h]

lemma stepStream_no_respawn (region : MultiRect) (minT maxT : ℤ)
    (interp : QInterp) (dt : ℚ) (s : Stream) (f : ℕ → ℚ) (k : ℕ)
    (h1 : ¬ s.ttl ≤ 0) (h2 : region.contains s.pos = true) :
    stepStream region minT maxT interp dt s f k =
      some (advect interp dt s k) := by
  unfold stepStream
  rw [if_neg (by simp [h1, h2])]

lemma stepStream_respawn (region : MultiRect) (minT maxT : ℤ)
    (interp : QInterp) (dt : ℚ) (s : Stream) (f : ℕ → ℚ) (k : ℕ)
    (fresh : Stream) (k1 : ℕ)
    (h : s.ttl ≤ 0 ∨ region.contains s.pos = false)
    (hs : region.randomStream minT maxT f k = some (fresh, k1)) :
    stepStream region minT maxT interp dt s f k =
      some (advect interp dt fresh k1) := by
  unfold stepStream
  rw [if_pos h, hs]

/-- Claim C5: the respawn check runs at the start of a particle's
per-tick processing, before advection.  A particle whose ttl is about
to be decremented to exactly 0 (ttl = 1, still inside the region) is
not respawned during that tick: it is advected from its own position
and no random draw is consumed.  A particle entering the next tick with
ttl = 0 is replaced at the start of that tick, and the freshly spawned
replacement is advected by the interpolator and has its ttl decremented
within that same tick. -/
theorem c5_respawn_timing (region : MultiRect) (minT maxT : ℤ)
    (interp : QInterp) (dt : ℚ) (f : ℕ → ℚ) (k : ℕ) :
    (∀ s : Stream, s.ttl = 1 → region.contains s.pos = true →
      stepStream region minT maxT interp dt s f k =
        some (⟨(interp s.pos dt).1, 0⟩, (s.pos, (interp s.pos dt).1), k)) ∧
    (∀ (s fresh : Stream) (k1 : ℕ), s.ttl = 0 →
      region.randomStream minT maxT f k = some (fresh, k1) →
      stepStream region minT maxT interp dt s f k =
        some (⟨(interp fresh.pos dt).1, fresh.ttl - 1⟩,
          (fresh.pos, (interp fresh.pos dt).1), k1)) := by
  constructor
  · intro s httl hin
    rw [stepStream_no_respawn region minT maxT interp dt s f k
      (by omega) hin]
    unfold advect
    rw [httl]
    norm_num
  · intro s fresh k1 httl hs
    rw [stepStream_respawn region minT maxT interp dt s f k fresh k1
      (Or.inl (by omega)) hs]
    rfl

/-- Witness for claim C5 on the unit-square region with the identity
interpolator: a ttl = 1 particle advects in place and ends the tick at
ttl = 0 without a respawn, and a ttl = 0 particle is respawned at the
spawn point drawn by the random stream and then advected, ending at
ttl = 4. -/
theorem c5_respawn_timing_witness :
    stepStream unitRegion 5 10 idInterp (1 / 2)
        ⟨⟨FV.fin (1 / 2), FV.fin (1 / 2)⟩, 1⟩ zeroDraws 0 =
      some (⟨⟨FV.fin (1 / 2), FV.fin (1 / 2)⟩, 0⟩,
        (⟨FV.fin (1 / 2), FV.fin (1 / 2)⟩, ⟨FV.fin (1 / 2), FV.fin (1 / 2)⟩),
        0) ∧
    stepStream unitRegion 5 10 idInterp (1 / 2)
        ⟨⟨FV.fin (1 / 2), FV.fin (1 / 2)⟩, 0⟩ zeroDraws 0 =
      some (⟨⟨FV.fin 0, FV.fin 0⟩, 4⟩,
        (⟨FV.fin 0, FV.fin 0⟩, ⟨FV.fin 0, FV.fin 0⟩), 4) := by
  constructor
  · exact (c5_respawn_timing unitRegion 5 10 idInterp (1 / 2) zeroDraws
      0).1 ⟨⟨FV.fin (1 / 2), FV.fin (1 / 2)⟩, 1⟩ rfl
      (by with_unfolding_all decide)
  · exact (c5_respawn_timing unitRegion 5 10 idInterp (1 / 2) zeroDraws
      0).2 ⟨⟨FV.fin (1 / 2), FV.fin (1 / 2)⟩, 0⟩ ⟨⟨FV.fin 0, FV.fin 0⟩, 5⟩
      4 rfl (by with_unfolding_all decide)

/-- Claim C10: when a particle is respawned during a tick (ttl expired
or position out of region at the start of its processing), the emitted
segment uses the freshly spawned position as prevPos, and the output of
the step is entirely independent of the pre-respawn particle — the
pre-respawn position never appears in the output. -/
theorem c10_respawn_segment (region : MultiRect) (minT maxT : ℤ)
    (interp : QInterp) (dt : ℚ) (f : ℕ → ℚ) (k : ℕ) :
    (∀ (s fresh : Stream) (k1 : ℕ),
      (s.ttl ≤ 0 ∨ region.contains s.pos = false) →
      region.randomStream minT maxT f k = some (fresh, k1) →
      stepStream region minT maxT interp dt s f k =
        some (⟨(interp fresh.pos dt).1, fresh.ttl - 1⟩,
          (fresh.pos, (interp fresh.pos dt).1), k1)) ∧
    (∀ s1 s2 : Stream,
      (s1.ttl ≤ 0 ∨ region.contains s1.pos = false) →
      (s2.ttl ≤ 0 ∨ region.contains s2.pos = false) →
      stepStream region minT maxT interp dt s1 f k =
        stepStream region minT maxT interp dt s2 f k) := by
  constructor
  · intro s fresh k1 h hs
    rw [stepStream_respawn region minT maxT interp dt s f k fresh k1 h hs]
    rfl
  · intro s1 s2 h1 h2
    unfold stepStream
    rw [if_pos h1, if_pos h2]

/-- Witness for claim C10 on the unit-square region: a particle parked
outside the region is respawned, its segment starts at the fresh spawn
point, and two different out-of-region particles produce identical step
outputs. -/
theorem c10_respawn_segment_witness :
    stepStream unitRegion 5 10 idInterp (1 / 2) ⟨⟨FV.fin 5, FV.fin 5⟩, 3⟩
        zeroDraws 0 =
      some (⟨⟨FV.fin 0, FV.fin 0⟩, 4⟩,
        (⟨FV.fin 0, FV.fin 0⟩, ⟨FV.fin 0, FV.fin 0⟩), 4) ∧
    stepStream unitRegion 5 10 idInterp (1 / 2) ⟨⟨FV.fin 5, FV.fin 5⟩, 3⟩
        zeroDraws 0 =
      stepStream unitRegion 5 10 idInterp (1 / 2)
        ⟨⟨FV.fin 7, FV.fin 9⟩, -2⟩ zeroDraws 0 := by
  constructor
  · exact (c10_respawn_segment unitRegion 5 10 idInterp (1 / 2) zeroDraws
      0).1 ⟨⟨FV.fin 5, FV.fin 5⟩, 3⟩ ⟨⟨FV.fin 0, FV.fin 0⟩, 5⟩ 4
      (Or.inr (by with_unfolding_all decide))
      (by with_unfolding_all decide)
  · exact (c10_respawn_segment unitRegion 5 10 idInterp (1 / 2) zeroDraws
      0).2 ⟨⟨FV.fin 5, FV.fin 5⟩, 3⟩ ⟨⟨FV.fin 7, FV.fin 9⟩, -2⟩
      (Or.inr (by with_unfolding_all decide))
      (Or.inl (by with_unfolding_all decide))

/-- Claim C3 (amended): the tick performs no finiteness check: a
particle that is not respawn-eligible has the interpolator's returned
position — finite or not — written into the pool and into the emitted
segment as-is.  Non-finite positions are instead caught one tick later:
the strict containment test is false for any position with a NaN
coordinate, so a particle whose stored position went non-finite is
respawned at the start of the next tick. -/
theorem c3_nan_handling (region : MultiRect) (minT maxT : ℤ)
    (interp : QInterp) (dt : ℚ) (f : ℕ → ℚ) (k : ℕ) :
    (∀ s : Stream, ¬ s.ttl ≤ 0 → region.contains s.pos = true →
      stepStream region minT maxT interp dt s f k =
        some (⟨(interp s.pos dt).1, s.ttl - 1⟩,
          (s.pos, (interp s.pos dt).1), k)) ∧
    (∀ p : QPosition, FV.isNaN p.lat = true ∨ FV.isNaN p.lon = true →
      region.contains p = false) ∧
    (∀ (s fresh : Stream) (k1 : ℕ),
      FV.isNaN s.pos.lat = true ∨ FV.isNaN s.pos.lon = true →
      region.randomStream minT maxT f k = some (fresh, k1) →
      stepStream region minT maxT interp dt s f k =
        some (⟨(interp fresh.pos dt).1, fresh.ttl - 1⟩,
          (fresh.pos, (interp fresh.pos dt).1), k1)) := by
  refine ⟨?_, ?_, ?_⟩
  · intro s h1 h2
    rw [stepStream_no_respawn region minT maxT interp dt s f k h1 h2]
    rfl
  · intro p h
    exact multiRect_contains_nan region p h
  · intro s fresh k1 h hs
    rw [stepStream_respawn region minT maxT interp dt s f k fresh k1
      (Or.inr (multiRect_contains_nan region s.pos h)) hs]
    rfl

/-- Witness for claim C3 on the unit-square region with an interpolator
that returns an all-NaN position: the NaN position is written into the
particle and the segment unchecked, the NaN position fails the
containment test, and a particle already at a NaN position is respawned
and advected from the fresh spawn point. -/
theorem c3_nan_handling_witness :
    stepStream unitRegion 5 10 nanInterp (1 / 2)
        ⟨⟨FV.fin (1 / 2), FV.fin (1 / 2)⟩, 7⟩ zeroDraws 0 =
      some (⟨⟨FV.nan, FV.nan⟩, 6⟩,
        (⟨FV.fin (1 / 2), FV.fin (1 / 2)⟩, ⟨FV.nan, FV.nan⟩), 0) ∧
    unitRegion.contains ⟨FV.nan, FV.nan⟩ = false ∧
    stepStream unitRegion 5 10 idInterp (1 / 2) ⟨⟨FV.nan, FV.nan⟩, 6⟩
        zeroDraws 0 =
      some (⟨⟨FV.fin 0, FV.fin 0⟩, 4⟩,
        (⟨FV.fin 0, FV.fin 0⟩, ⟨FV.fin 0, FV.fin 0⟩), 4) := by
  refine ⟨?_, ?_, ?_⟩
  · exact (c3_nan_handling unitRegion 5 10 nanInterp (1 / 2) zeroDraws
      0).1 ⟨⟨FV.fin (1 / 2), FV.fin (1 / 2)⟩, 7⟩ (by decide)
      (by with_unfolding_all decide)
  · exact (c3_nan_handling unitRegion 5 10 nanInterp (1 / 2) zeroDraws
      0).2.1 ⟨FV.nan, FV.nan⟩ (Or.inl rfl)
  · exact (c3_nan_handling unitRegion 5 10 idInterp (1 / 2) zeroDraws
      0).2.2 ⟨⟨FV.nan, FV.nan⟩, 6⟩ ⟨⟨FV.fin 0, FV.fin 0⟩, 5⟩ 4
      (Or.inl rfl) (by with_unfolding_all decide)

/-- Claim C3 counterexample: starting from a pool whose single particle
position is finite (and inside the region, with plenty of ttl), a tick
with an interpolator that evaluates to a NaN position stores that NaN
position in the pool and emits it as a segment endpoint — no non-finite
evaluation result is detected or treated as a forced respawn within the
tick. -/
theorem c3_counterexample :
    USA_OUTER.contains goodPos = true ∧
    FV.isNaN goodPos.lat = false ∧ FV.isNaN goodPos.lon = false ∧
    tickGo USA_OUTER 5 10 nanInterp (1 / 2) zeroDraws [⟨goodPos, 5⟩] 0 =
      some ([⟨⟨FV.nan, FV.nan⟩, 4⟩], [(goodPos, ⟨FV.nan, FV.nan⟩)], 0) := by
  with_unfolding_all decide

/-! ### The area-weighted random walk (C7) -/

lemma randomGo_first (f : ℕ → ℚ) (weight : ℚ) :
    ∀ (rects : List Rect) (th : ℚ) (k : ℕ), rects ≠ [] →
      weight < th + (rects.map Rect.area).sum →
      ∃ i : ℕ, ∃ h : i < rects.length,
        randomGo f weight rects th k =
          some ((rects.get ⟨i, h⟩).randomPt (f k) (f (k + 1)), k + 2) ∧
        weight ≤ th + cumArea rects (i + 1) ∧
        ∀ j < i, th + cumArea rects (j + 1) < weight := by
  intro rects
  induction rects with
  | nil => intro th k hne _; exact absurd rfl hne
  | cons r rest ih =>
    intro th k _ hw
    by_cases hle : weight ≤ th + r.area
    · refine ⟨0, Nat.succ_pos _, ?_, ?_, ?_⟩
      · simp only [randomGo]
        rw [if_pos hle]
        rfl
      · have hc : cumArea (r :: rest) 1 = r.area := by
          simp [cumArea]
        rw [hc]
        exact hle
      · intro j hj
        exact absurd hj (Nat.not_lt_zero j)
    · have hw2 : weight < (th + r.area) + (rest.map Rect.area).sum := by
        rw [List.map_cons, List.sum_cons] at hw
        linarith
      have hne2 : rest ≠ [] := by
        rintro rfl
        simp only [List.map_nil, List.sum_nil, add_zero] at hw2
        exact hle (le_of_lt hw2)
      obtain ⟨i, hi, heq, hub, hlb⟩ := ih (th + r.area) k hne2 hw2
      refine ⟨i + 1, Nat.succ_lt_succ hi, ?_, ?_, ?_⟩
      · simp only [randomGo]
        rw [if_neg hle]
        exact heq
      · have hc : cumArea (r :: rest) (i + 1 + 1) =
            r.area + cumArea rest (i + 1) := by
          simp [cumArea, List.take_succ_cons]
        rw [hc]
        linarith
      · intro j hj
        cases j with
        | zero =>
          have hc : cumArea (r :: rest) 1 = r.area := by
            simp [cumArea]
          rw [hc]
          linarith [lt_of_not_ge hle]
        | succ j1 =>
          have hc : cumArea (r :: rest) (j1 + 1 + 1) =
              r.area + cumArea rest (j1 + 1) := by
            simp [cumArea, List.take_succ_cons]
          rw [hc]
          have := hlb j1 (Nat.lt_of_succ_lt_succ hj)
          linarith

lemma Rect.contains_randomPt (r : Rect) (x y : ℚ) (hb : r.bottom < r.top)
    (hl : r.left < r.right) (hx0 : 0 < x) (hx1 : x < 1) (hy0 : 0 < y)
    (hy1 : y < 1) : r.contains (r.randomPt x y) = true := by
  unfold Rect.contains Rect.randomPt
  simp only [FV.blt, Bool.and_eq_true, decide_eq_true_eq]
  have h1 : 0 < (r.top - r.bottom) * x := mul_pos (by linarith) hx0
  have h2 : (r.top - r.bottom) * x < r.top - r.bottom := by
    nlinarith
  have h3 : 0 < (r.right - r.left) * y := mul_pos (by linarith) hy0
  have h4 : (r.right - r.left) * y < r.right - r.left := by
    nlinarith
  refine ⟨⟨⟨by linarith, by linarith⟩, by linarith⟩, by linarith⟩

/-- Claim C7 (amended): for a MultiRect built from a nonempty rect list
with positive areas (and the construction invariants bottom < top,
left < right that a positive-area constructed rect satisfies), and draw
sequences in the open interval (0,1) — rather than the half-open
[0,1) of the claim, since a draw of exactly 0 lands on the excluded
boundary — randomPoint succeeds without reaching the internal error
branch, selects the first rect whose cumulative area reaches the drawn
weight, and the returned point passes the strict-interior containment
test of at least one constituent rect. -/
theorem c7_region_sampling (rects : List Rect) (f : ℕ → ℚ) (k : ℕ)
    (hne : rects ≠ [])
    (hwf : ∀ r ∈ rects, r.bottom < r.top ∧ r.left < r.right ∧ 0 < r.area)
    (hf : ∀ n, 0 < f n ∧ f n < 1) :
    ∃ i : ℕ, ∃ h : i < rects.length,
      (MultiRect.make rects).randomPoint f k =
        some ((rects.get ⟨i, h⟩).randomPt (f (k + 1)) (f (k + 2)),
          k + 3) ∧
      f k * (MultiRect.make rects).totalArea ≤ cumArea rects (i + 1) ∧
      (∀ j < i, cumArea rects (j + 1) <
        f k * (MultiRect.make rects).totalArea) ∧
      (MultiRect.make rects).contains
        ((rects.get ⟨i, h⟩).randomPt (f (k + 1)) (f (k + 2))) = true := by
  have hS : 0 < (rects.map Rect.area).sum := by
    apply List.sum_pos
    · intro a ha
      obtain ⟨r, hr, rfl⟩ := List.mem_map.mp ha
      exact (hwf r hr).2.2
    · intro hmap
      exact hne (by simpa using hmap)
  have htot : (MultiRect.make rects).totalArea =
      (rects.map Rect.area).sum := rfl
  have hw : f k * (MultiRect.make rects).totalArea <
      0 + (rects.map Rect.area).sum := by
    rw [zero_add, htot]
    have := mul_lt_mul_of_pos_right (hf k).2 hS
    rw [one_mul] at this
    exact this
  obtain ⟨i, hi, heq, hub, hlb⟩ := randomGo_first f
    (f k * (MultiRect.make rects).totalArea) rects 0 (k + 1) hne hw
  have hr := hwf (rects.get ⟨i, hi⟩) (List.get_mem rects i hi)
  have hcont : (rects.get ⟨i, hi⟩).contains
      ((rects.get ⟨i, hi⟩).randomPt (f (k + 1)) (f (k + 2))) = true :=
    Rect.contains_randomPt _ _ _ hr.1 hr.2.1 (hf (k + 1)).1 (hf (k + 1)).2
      (hf (k + 2)).1 (hf (k + 2)).2
  refine ⟨i, hi, ?_, ?_, ?_, ?_⟩
  · unfold MultiRect.randomPoint
    exact heq
  · have := hub
    rw [zero_add] at this
    exact this
  · intro j hj
    have := hlb j hj
    rw [zero_add] at this
    exact this
  · unfold MultiRect.contains
    rw [List.any_eq_true]
    exact ⟨rects.get ⟨i, hi⟩, List.get_mem rects i hi, hcont⟩

/-- Witness for claim C7 on the unit-square region with all draws equal
to one half: the walk selects the single rect and the sampled midpoint
passes the strict containment test. -/
theorem c7_region_sampling_witness :
    ∃ i : ℕ, ∃ h : i < [unitRect].length,
      (MultiRect.make [unitRect]).randomPoint halfDraws 0 =
        some (([unitRect].get ⟨i, h⟩).randomPt (halfDraws 1)
          (halfDraws 2), 3) ∧
      halfDraws 0 * (MultiRect.make [unitRect]).totalArea ≤
        cumArea [unitRect] (i + 1) ∧
      (∀ j < i, cumArea [unitRect] (j + 1) <
        halfDraws 0 * (MultiRect.make [unitRect]).totalArea) ∧
      (MultiRect.make [unitRect]).contains
        (([unitRect].get ⟨i, h⟩).randomPt (halfDraws 1) (halfDraws 2)) =
        true := by
  have h := c7_region_sampling [unitRect] halfDraws 0 (by simp)
    (by with_unfolding_all decide)
    (fun n => ⟨by norm_num [halfDraws], by norm_num [halfDraws]⟩)
  simpa using h

/-- Claim C7 counterexample: the unit-square region is built from one
rect of positive area, and the draw sequence that is constantly 0 —
every draw lies in the half-open interval [0,1) the claim quantifies
over — makes randomPoint return the corner point (0,0), which fails the
strict-interior containment test of every constituent rect: the
returned point is not contained in any rect. -/
theorem c7_counterexample :
    unitRect.area = 1 ∧
    unitRegion.randomPoint zeroDraws 0 =
      some (⟨FV.fin 0, FV.fin 0⟩, 3) ∧
    unitRegion.contains ⟨FV.fin 0, FV.fin 0⟩ = false := by
  with_unfolding_all decide

/-! ### Tick output shape (C6) -/

lemma USA_OUTER_rects_ne : USA_OUTER.rects ≠ [] := by
  with_unfolding_all decide

lemma USA_OUTER_total_pos : 0 < USA_OUTER.totalArea := by
  with_unfolding_all decide

lemma USA_OUTER_total_eq : USA_OUTER.totalArea =
    (USA_OUTER.rects.map Rect.area).sum := rfl

lemma randomStream_total (m : MultiRect) (minT maxT : ℤ) (f : ℕ → ℚ)
    (k : ℕ) (hne : m.rects ≠ [])
    (hw : f k * m.totalArea < (m.rects.map Rect.area).sum) :
    ∃ s1 k1, m.randomStream minT maxT f k = some (s1, k1) := by
  unfold MultiRect.randomStream MultiRect.randomPoint
  obtain ⟨i, hi, heq, _, _⟩ := randomGo_first f (f k * m.totalArea)
    m.rects 0 (k + 1) hne (by simpa using hw)
  rw [heq]
  exact ⟨_, _, rfl⟩

lemma stepStream_total_usa (minT maxT : ℤ) (interp : QInterp) (dt : ℚ)
    (s : Stream) (f : ℕ → ℚ) (k : ℕ) (hf : ∀ n, 0 ≤ f n ∧ f n < 1) :
    ∃ out, stepStream USA_OUTER minT maxT interp dt s f k = some out := by
  unfold stepStream
  by_cases h : s.ttl ≤ 0 ∨ USA_OUTER.contains s.pos = false
  · rw [if_pos h]
    have hw : f k * USA_OUTER.totalArea <
        (USA_OUTER.rects.map Rect.area).sum := by
      rw [← USA_OUTER_total_eq]
      have := mul_lt_mul_of_pos_right (hf k).2 USA_OUTER_total_pos
      rw [one_mul] at this
      exact this
    obtain ⟨s1, k1, hs⟩ := randomStream_total USA_OUTER minT maxT f k
      USA_OUTER_rects_ne hw
    rw [hs]
    exact ⟨_, rfl⟩
  · rw [if_neg h]
    exact ⟨_, rfl⟩

lemma tickGo_total (minT maxT : ℤ) (interp : QInterp) (dt : ℚ)
    (f : ℕ → ℚ) (hf : ∀ n, 0 ≤ f n ∧ f n < 1) :
    ∀ (pool : List Stream) (k : ℕ), ∃ pool1 segs k1,
      tickGo USA_OUTER minT maxT interp dt f pool k =
        some (pool1, segs, k1) ∧
      segs.length = pool.length ∧ pool1.length = pool.length ∧
      Steps USA_OUTER minT maxT interp dt f k pool pool1 segs k1 := by
  intro pool
  induction pool with
  | nil => exact fun k => ⟨[], [], k, rfl, rfl, rfl, Steps.nil k⟩
  | cons s rest ih =>
    intro k
    obtain ⟨⟨s1, seg, k1⟩, hstep⟩ :=
      stepStream_total_usa minT maxT interp dt s f k hf
    obtain ⟨rest1, segs, k2, hrest, hlen1, hlen2, hsteps⟩ := ih k1
    refine ⟨s1 :: rest1, seg :: segs, k2, ?_, by simp [hlen1],
      by simp [hlen2], Steps.cons hstep hsteps⟩
    simp only [tickGo, hstep, hrest]

/-- Claim C6: for every pool, every interpolator function (the code has
no failed interpolator state; an arbitrary function covers every
state), every tick configuration and every random sequence with draws
in [0,1), the tick succeeds and returns exactly one segment (and one
updated particle) per pooled particle, and entry i of each output list
arises from processing the particle at pool index i (the Steps
relation), so pool index order is preserved. -/
theorem c6_tick_output_shape (minT maxT : ℤ) (interp : QInterp)
    (dt : ℚ) (pool : List Stream) (f : ℕ → ℚ) (k : ℕ)
    (hf : ∀ n, 0 ≤ f n ∧ f n < 1) :
    ∃ pool1 segs k1,
      tickGo USA_OUTER minT maxT interp dt f pool k =
        some (pool1, segs, k1) ∧
      segs.length = pool.length ∧ pool1.length = pool.length ∧
      Steps USA_OUTER minT maxT interp dt f k pool pool1 segs k1 :=
  tickGo_total minT maxT interp dt f hf pool k

/-- Witness for claim C6 on a concrete one-particle pool with the
identity interpolator and the all-zero draw sequence. -/
theorem c6_tick_output_shape_witness :
    ∃ pool1 segs k1,
      tickGo USA_OUTER 5 10 idInterp (1 / 2) zeroDraws [⟨goodPos, 5⟩] 0 =
        some (pool1, segs, k1) ∧
      segs.length = 1 ∧ pool1.length = 1 ∧
      Steps USA_OUTER 5 10 idInterp (1 / 2) zeroDraws 0 [⟨goodPos, 5⟩]
        pool1 segs k1 := by
  have h := c6_tick_output_shape 5 10 idInterp (1 / 2) [⟨goodPos, 5⟩]
    zeroDraws 0 (fun n => ⟨le_refl 0, by norm_num [zeroDraws]⟩)
  simpa using h

/-! ### Derived spawn lifetime bounds (C9) -/

lemma jsTrunc_of_nonneg (q : ℚ) (h : 0 ≤ q) : jsTrunc q = ⌊q⌋ :=
  if_pos h

/-- Claim C9 (amended): the simulator derives its spawn lifetime bounds
from the configuration alone as maxTicks = min(10,
trunc(maxWindowHours / tickDurationHours)) and minTicks = min(5,
trunc(0.7 * maxTicks)), where trunc truncates toward zero (JavaScript
Math.trunc) rather than taking the floor as claimed; truncation and
floor agree whenever the configured ratio is nonnegative, which this
theorem assumes. -/
theorem c9_derived_tick_bounds (window tick : ℚ)
    (h : 0 ≤ window / tick) :
    maxTicksOf window tick = min 10 ⌊window / tick⌋ ∧
    minTicksOf window tick =
      min 5 ⌊(0.7 : ℚ) * ((maxTicksOf window tick : ℤ) : ℚ)⌋ := by
  have h1 : maxTicksOf window tick = min 10 ⌊window / tick⌋ := by
    unfold maxTicksOf
    rw [jsTrunc_of_nonneg _ h]
  refine ⟨h1, ?_⟩
  have hmax : (0 : ℤ) ≤ maxTicksOf window tick := by
    rw [h1]
    have hfl : (0 : ℤ) ≤ ⌊window / tick⌋ := Int.floor_nonneg.mpr h
    omega
  unfold minTicksOf
  rw [jsTrunc_of_nonneg]
  exact mul_nonneg (by norm_num) (by exact_mod_cast hmax)

/-- Witness for claim C9 at the default configuration (window 168
hours, tick 0.5 hours), whose ratio 336 is nonnegative. -/
theorem c9_derived_tick_bounds_witness :
    maxTicksOf 168 (1 / 2) = min 10 ⌊(168 : ℚ) / (1 / 2)⌋ ∧
    minTicksOf 168 (1 / 2) =
      min 5 ⌊(0.7 : ℚ) * ((maxTicksOf 168 (1 / 2) : ℤ) : ℚ)⌋ :=
  c9_derived_tick_bounds 168 (1 / 2) (by with_unfolding_all decide)

/-- Claim C9 counterexample: at the configurable (if pathological)
window of -1 hours and tick of 0.4 hours the ratio is -2.5; the source
truncates toward zero (yielding maxTicks = -2) while the claimed floor
form yields -3, so the claimed formula differs from the code. -/
theorem c9_counterexample :
    maxTicksOf (-1) (2 / 5) ≠ min 10 ⌊((-1 : ℚ)) / (2 / 5)⌋ := by
  with_unfolding_all decide

end Winds
